import Mathlib

/-!
Verification of `src/MagnumPlugins/KtxImporter/formatMapping.py`, a build-time
code generator: it scans `flextVk.h` for numeric `VK_FORMAT_*` constants, scans
`Vk/PixelFormat.h` for `Name = VK_FORMAT_...` mapping lines, derives a
classification suffix per mapping with a second regular expression, partitions
the resulting records by the `Compressed` qualifier, and writes two generated
header fragments.

The script is embedded shallowly as pure functions over the two input files
given as lists of lines (Python `readlines`, with the trailing newline of each
line handled by the `$` anchor of the regexes, so lines are modelled without
it).  A fatal `assert` (AssertionError, non-zero exit, no output files written)
is modelled by `Option.none`; the successful result carries the soft-warning
flag (`True` when `len(formats) != 135` is printed) and the full text of the
two output files.

The three regular expressions are compiled to deterministic parsers.  For the
two anchored line patterns the backtracking of Python `re` is resolved: a
greedy `\s+`, `\w+` or `\d+` run followed by a literal whose first character
is outside the class matches exactly the maximal run.  For the unanchored
suffix pattern `\w+_([U|S](NORM|INT|FLOAT|RGB))\w*` the full `re.search`
semantics is kept: start positions are tried left to right and at each start
the greedy `\w+` is tried longest first, which makes the rightmost matching
`_`-token of an identifier win.
-/

namespace FormatMapping

/-- ASCII `\w` of the Python regexes: letters, digits and underscore. -/
def isWordChar (c : Char) : Bool :=
  c.isAlphanum || c = '_'

/-- ASCII `\s` of the Python regexes. -/
def isSpaceChar (c : Char) : Bool :=
  c = ' ' || c = '\t' || c = '\n' || c = '\r' || c = '\x0b' || c = '\x0c'

/-- Match a literal character sequence, returning the remainder. -/
def expectChars : List Char → List Char → Option (List Char)
  | [], s => some s
  | p :: ps, c :: cs => if c = p then expectChars ps cs else none
  | _ :: _, [] => none

/-- The first regex, `^\s+VK_FORMAT_(\w+) = (\d+),?$` applied to a header
line: leading whitespace, the `VK_FORMAT_` prefix, the captured identifier,
a literal ` = `, the captured digit string, an optional trailing comma.
Returns the two captured groups. -/
def matchVkFormat (line : String) : Option (String × String) :=
  let cs := line.data
  let ws := cs.takeWhile isSpaceChar
  if ws.isEmpty then none else
  match expectChars "VK_FORMAT_".data (cs.drop ws.length) with
  | none => none
  | some r1 =>
    let name := r1.takeWhile isWordChar
    if name.isEmpty then none else
    match expectChars " = ".data (r1.drop name.length) with
    | none => none
    | some r2 =>
      let val := r2.takeWhile Char.isDigit
      if val.isEmpty then none else
      match r2.drop val.length with
      | [] => some (String.mk name, String.mk val)
      | [c] => if c = ',' then some (String.mk name, String.mk val) else none
      | _ => none

/-- The second regex, `^\s+(Compressed)?(\w+) = VK_FORMAT_(\w+),?$` applied to
a mapping line.  Returns `(compressed, magnum_name, vulkan_name)` where
`compressed` is `match.group(1) != None`.  Groups 1 and 2 together consume one
maximal word run; group 2 needs at least one character, so the optional
`Compressed` literal is taken exactly when the run strictly extends it. -/
def matchMapping (line : String) : Option (Bool × String × String) :=
  let cs := line.data
  let ws := cs.takeWhile isSpaceChar
  if ws.isEmpty then none else
  let r0 := cs.drop ws.length
  let w := r0.takeWhile isWordChar
  if w.isEmpty then none else
  match expectChars " = VK_FORMAT_".data (r0.drop w.length) with
  | none => none
  | some r1 =>
    let vname := r1.takeWhile isWordChar
    if vname.isEmpty then none else
    let result :=
      if "Compressed".data.isPrefixOf w ∧ 10 < w.length then
        (true, String.mk (w.drop 10), String.mk vname)
      else
        (false, String.mk w, String.mk vname)
    match r1.drop vname.length with
    | [] => some result
    | [c] => if c = ',' then some result else none
    | _ => none

/-- The alternatives `NORM|INT|FLOAT|RGB` of the suffix regex, in source
order. -/
def markerTags : List (List Char) := ["NORM".data, "INT".data, "FLOAT".data, "RGB".data]

/-- Match the group `[U|S](NORM|INT|FLOAT|RGB)` of the suffix regex at the
start of `s` and return the matched group.  The character class `[U|S]`
accepts the literal bar as well. -/
def tryMarker (s : List Char) : Option (List Char) :=
  match s with
  | [] => none
  | c :: rest =>
    if c = 'U' || c = '|' || c = 'S' then
      match markerTags.find? (fun t => t.isPrefixOf rest) with
      | some t => some (c :: t)
      | none => none
    else none

/-- Attempt of the suffix regex `\w+_([U|S](NORM|INT|FLOAT|RGB))\w*` anchored
at the start of `s` with `\w+` bound to exactly `j` characters: the first `j`
characters must be word characters, the next an underscore, and the group must
match after it (`\w*` never fails). -/
def tryAt (s : List Char) (j : Nat) : Option (List Char) :=
  if 1 ≤ j then
    if (s.take j).all isWordChar then
      match s.drop j with
      | '_' :: rest => tryMarker rest
      | _ => none
    else none
  else none

/-- Greedy `\w+`: try lengths `n, n-1, ..., 1` in order, as the backtracking
engine does. -/
def tryGreedy (s : List Char) : Nat → Option (List Char)
  | 0 => none
  | j + 1 =>
    match tryAt s (j + 1) with
    | some g => some g
    | none => tryGreedy s j

/-- Python re.search of the suffix pattern: start positions left to right,
greedy `\w+` at each.  Returns group 1. -/
def searchSuffix : List Char → Option (List Char)
  | [] => none
  | c :: rest =>
    match tryGreedy (c :: rest) (c :: rest).length with
    | some g => some g
    | none => searchSuffix rest

/-- One iteration of the first loop: on a matching line, `assert` that the
symbol is not yet present (`none` on failure) and append it to the constant
table; non-matching lines are skipped. -/
def extractStep (tbl : List (String × String)) (line : String) :
    Option (List (String × String)) :=
  match matchVkFormat line with
  | none => some tbl
  | some (n, v) =>
    if (List.lookup n tbl).isSome then none else some (tbl ++ [(n, v)])

/-- The first loop over the `flextVk.h` lines, starting from table `tbl`. -/
def extractLoop (tbl : List (String × String)) :
    List String → Option (List (String × String))
  | [] => some tbl
  | line :: rest =>
    match extractStep tbl line with
    | none => none
    | some tbl2 => extractLoop tbl2 rest

/-- The constant table `vulkan_formats` built from the first header. -/
def extractConstants (lines : List String) : Option (List (String × String)) :=
  extractLoop [] lines

/-- The `Format` namedtuple of the script. -/
structure Format where
  compressed : Bool
  magnum : String
  vulkan_name : String
  vulkan : String
  suffix : String
deriving DecidableEq

/-- One iteration of the second loop: on a matching line, `assert` the
referenced constant exists, derive the suffix (`assert` a match exists and
that it is not `URGB`), and append the record; non-matching lines are
skipped. -/
def buildStep (tbl : List (String × String)) (fs : List Format) (line : String) :
    Option (List Format) :=
  match matchMapping line with
  | none => some fs
  | some (compressed, magnum_name, vulkan_name) =>
    match List.lookup vulkan_name tbl with
    | none => none
    | some value =>
      match searchSuffix vulkan_name.data with
      | none => none
      | some g =>
        if g = "URGB".data then none
        else some (fs ++ [{ compressed := compressed, magnum := magnum_name,
                            vulkan_name := vulkan_name, vulkan := value,
                            suffix := String.mk g }])

/-- The second loop over the `PixelFormat.h` lines, starting from `fs`. -/
def buildLoop (tbl : List (String × String)) (fs : List Format) :
    List String → Option (List Format)
  | [] => some fs
  | line :: rest =>
    match buildStep tbl fs line with
    | none => none
    | some fs2 => buildLoop tbl fs2 rest

/-- The `formats` list built from the second header. -/
def buildFormats (tbl : List (String × String)) (lines : List String) :
    Option (List Format) :=
  buildLoop tbl [] lines

/-- The `partition` recipe via `itertools.filterfalse` and `filter`:
records failing the predicate first, records satisfying it second. -/
def partitionFormats (fs : List Format) : List Format × List Format :=
  (fs.filter (fun f => !f.compressed), fs.filter (fun f => f.compressed))

/-- The list comprehension dropping `Pvrtc2*` records from the compressed
sequence (the startswith test against `Pvrtc2` in the source). -/
def filterPvrtc2 (fs : List Format) : List Format :=
  fs.filter (fun f => !("Pvrtc2".data.isPrefixOf f.magnum.data))

/-- The license header written at the top of both output files. -/
def licenseHeader : String :=
  "/*\n    This file is part of Magnum.\n\n    Copyright © 2010, 2011, 2012, 2013, 2014, 2015, 2016, 2017, 2018, 2019,\n                2020, 2021, 2022, 2023, 2024, 2025\n              Vladimír Vondruš <mosra@centrum.cz>\n    Copyright © 2021 Pablo Escobar <mail@rvrs.in>\n\n    Permission is hereby granted, free of charge, to any person obtaining a\n    copy of this software and associated documentation files (the \"Software\"),\n    to deal in the Software without restriction, including without limitation\n    the rights to use, copy, modify, merge, publish, distribute, sublicense,\n    and/or sell copies of the Software, and to permit persons to whom the\n    Software is furnished to do so, subject to the following conditions:\n\n    The above copyright notice and this permission notice shall be included\n    in all copies or substantial portions of the Software.\n\n    THE SOFTWARE IS PROVIDED \"AS IS\", WITHOUT WARRANTY OF ANY KIND, EXPRESS OR\n    IMPLIED, INCLUDING BUT NOT LIMITED TO THE WARRANTIES OF MERCHANTABILITY,\n    FITNESS FOR A PARTICULAR PURPOSE AND NONINFRINGEMENT. IN NO EVENT SHALL\n    THE AUTHORS OR COPYRIGHT HOLDERS BE LIABLE FOR ANY CLAIM, DAMAGES OR OTHER\n    LIABILITY, WHETHER IN AN ACTION OF CONTRACT, TORT OR OTHERWISE, ARISING\n    FROM, OUT OF OR IN CONNECTION WITH THE SOFTWARE OR THE USE OR OTHER\n    DEALINGS IN THE SOFTWARE.\n*/\n\n/* Autogenerated from formatMapping.py! Do not edit! */\n\n"

/-- The `_c(...)` line written for one record, trailing newline included. -/
def emitLine (f : Format) : String :=
  "_c(" ++ f.vulkan ++ ", " ++ f.magnum ++ ", " ++ f.suffix ++ ") /* VK_FORMAT_"
    ++ f.vulkan_name ++ " */\n"

/-- Column comment of `formatMapping.hpp`. -/
def columnsNC : String := "/* VkFormat, PixelFormat, Implementation::VkFormatSuffix */\n"

/-- Column comment of `compressedFormatMapping.hpp`. -/
def columnsC : String := "/* VkFormat, CompressedPixelFormat, Implementation::VkFormatSuffix */\n"

/-- Full text of one output file: license header, column comment, `#ifdef _c`
guard, one `_c` line per record, closing guard. -/
def fileContent (columns : String) (fs : List Format) : String :=
  licenseHeader ++ columns ++ "#ifdef _c\n" ++ String.join (fs.map emitLine)
    ++ "#endif\n"

/-- Split a character list at newline characters (the lines of an emitted
file, in the sense of `str.split` on a newline). -/
def splitLinesChar : List Char → List (List Char)
  | [] => [[]]
  | c :: rest =>
    match splitLinesChar rest with
    | [] => [[]]
    | l :: ls => if c = '\n' then [] :: l :: ls else (c :: l) :: ls

/-- The lines of an emitted file. -/
def fileLines (s : String) : List String :=
  (splitLinesChar s.data).map String.mk

/-- The whole script on the two input files given as lines.  `none` models a
failed `assert` (the process dies before any output file is opened; both
`open(..., 'w')` calls come after both loops).  On success the result is the
warning flag (`len(formats) != 135` printed to stdout) and the contents of
`formatMapping.hpp` and `compressedFormatMapping.hpp`. -/
def runScript (vkLines fmtLines : List String) : Option (Bool × String × String) :=
  match extractConstants vkLines with
  | none => none
  | some tbl =>
    match buildFormats tbl fmtLines with
    | none => none
    | some fs =>
      let warned := fs.length != 135
      let nc := (partitionFormats fs).1
      let cs := filterPvrtc2 (partitionFormats fs).2
      some (warned, fileContent columnsNC nc, fileContent columnsC cs)

/-! ### Helper lemmas about the embedded parsers and loops -/

theorem expectChars_eq_append {p s r : List Char} (h : expectChars p s = some r) :
    s = p ++ r := by
  induction p generalizing s with
  | nil =>
    simp only [expectChars, Option.some.injEq] at h
    simp [h]
  | cons p ps ih =>
    cases s with
    | nil => simp [expectChars] at h
    | cons d ds =>
      simp only [expectChars] at h
      by_cases hd : d = p
      · rw [if_pos hd] at h
        subst hd
        simp [ih h]
      · rw [if_neg hd] at h
        cases h

theorem drop_length_takeWhile (p : Char → Bool) (l : List Char) :
    l.drop (l.takeWhile p).length = l.dropWhile p := by
  induction l with
  | nil => rfl
  | cons c cs ih =>
    by_cases h : p c
    · simpa [List.takeWhile_cons, List.dropWhile_cons, h] using ih
    · simp [List.takeWhile_cons, List.dropWhile_cons, h]

theorem takeWhile_decomp (p : Char → Bool) (l : List Char) :
    l = l.takeWhile p ++ l.drop (l.takeWhile p).length := by
  rw [drop_length_takeWhile, List.takeWhile_append_dropWhile]

/-- The function `splitLinesChar` never returns the empty list of lines. -/
theorem splitLinesChar_ne_nil (s : List Char) : splitLinesChar s ≠ [] := by
  cases s with
  | nil => simp [splitLinesChar]
  | cons c rest =>
    rcases h : splitLinesChar rest with _ | ⟨l, ls⟩
    · simp [splitLinesChar, h]
    · simp only [splitLinesChar, h]
      split <;> simp

/-- Splitting a newline-free line followed by a newline peels off exactly that
line. -/
theorem splitLinesChar_line (l b : List Char) (hl : '\n' ∉ l) :
    splitLinesChar (l ++ '\n' :: b) = l :: splitLinesChar b := by
  induction l with
  | nil =>
    rcases h : splitLinesChar b with _ | ⟨x, xs⟩
    · exact absurd h (splitLinesChar_ne_nil b)
    · simp [splitLinesChar, h]
  | cons c l' ih =>
    have hc : c ≠ '\n' := fun hc => hl (hc ▸ List.mem_cons_self c l')
    have hl' : '\n' ∉ l' := fun hm => hl (List.mem_cons_of_mem c hm)
    simp only [List.cons_append, splitLinesChar, List.append_eq]
    rw [ih hl']
    simp [hc]

/-- Prepending one character preserves membership in the tail of the line
list. -/
theorem mem_tail_splitLinesChar_cons (c : Char) (s l : List Char)
    (h : l ∈ (splitLinesChar s).tail) : l ∈ (splitLinesChar (c :: s)).tail := by
  rcases hs : splitLinesChar s with _ | ⟨x, xs⟩
  · exact absurd hs (splitLinesChar_ne_nil s)
  · rw [hs] at h
    simp only [List.tail_cons] at h
    simp only [splitLinesChar, hs]
    by_cases hc : c = '\n'
    · simp only [if_pos hc, List.tail_cons]
      exact List.mem_cons_of_mem x h
    · simp only [if_neg hc, List.tail_cons]
      exact h

/-- Prepending any text preserves membership in the tail of the line list. -/
theorem mem_tail_splitLinesChar_append (a s l : List Char)
    (h : l ∈ (splitLinesChar s).tail) : l ∈ (splitLinesChar (a ++ s)).tail := by
  induction a with
  | nil => simpa using h
  | cons c a' ih => exact mem_tail_splitLinesChar_cons c (a' ++ s) l ih

/-- A newline-free segment of the file text that is delimited by newlines on
both sides is one of the lines of the file. -/
theorem mem_fileLines_of_decomp (content line : String) (a b : List Char)
    (hc : content.data = a ++ '\n' :: (line.data ++ '\n' :: b))
    (hl : '\n' ∉ line.data) : line ∈ fileLines content := by
  have h1 : splitLinesChar ('\n' :: (line.data ++ '\n' :: b))
      = [] :: line.data :: splitLinesChar b := by
    rcases h : splitLinesChar b with _ | ⟨x, xs⟩
    · exact absurd h (splitLinesChar_ne_nil b)
    · simp only [splitLinesChar]
      rw [splitLinesChar_line line.data b hl, h]
      simp
  have h2 : line.data ∈ (splitLinesChar ('\n' :: (line.data ++ '\n' :: b))).tail := by
    rw [h1]; simp
  have h3 : line.data ∈ (splitLinesChar content.data).tail := by
    rw [hc]
    exact mem_tail_splitLinesChar_append a _ _ h2
  have h4 : line.data ∈ splitLinesChar content.data := List.mem_of_mem_tail h3
  have h5 := List.mem_map_of_mem String.mk h4
  exact h5

theorem extractLoop_append (tbl : List (String × String)) (xs ys : List String) :
    extractLoop tbl (xs ++ ys) =
      match extractLoop tbl xs with
      | none => none
      | some tbl2 => extractLoop tbl2 ys := by
  induction xs generalizing tbl with
  | nil => simp [extractLoop]
  | cons l ls ih =>
    simp only [List.cons_append, extractLoop]
    cases extractStep tbl l with
    | none => rfl
    | some tbl2 => exact ih tbl2

theorem buildLoop_none_of_mem (tbl : List (String × String)) (fs : List Format)
    (lines : List String) (line : String) (hmem : line ∈ lines)
    (hfail : ∀ gs, buildStep tbl gs line = none) :
    buildLoop tbl fs lines = none := by
  induction lines generalizing fs with
  | nil => cases hmem
  | cons l ls ih =>
    rcases List.mem_cons.mp hmem with h | h
    · subst h
      simp [buildLoop, hfail fs]
    · simp only [buildLoop]
      cases hb : buildStep tbl fs l with
      | none => rfl
      | some fs2 => exact ih fs2 h

theorem runScript_eq_none_of_extract {vk fmt : List String}
    (h : extractConstants vk = none) : runScript vk fmt = none := by
  simp [runScript, h]

theorem runScript_eq_none_of_build {vk fmt : List String} {tbl : List (String × String)}
    (h1 : extractConstants vk = some tbl) (h2 : buildFormats tbl fmt = none) :
    runScript vk fmt = none := by
  simp [runScript, h1, h2]

/-- A mapping line on which one of the three `assert`s of the second loop
fires makes `buildStep` fail no matter what was accumulated before. -/
theorem buildStep_none_cond {tbl : List (String × String)} {line : String}
    {c : Bool} {m v : String} (hm : matchMapping line = some (c, m, v))
    (hfail : List.lookup v tbl = none ∨ searchSuffix v.data = none ∨
      searchSuffix v.data = some "URGB".data) :
    ∀ gs, buildStep tbl gs line = none := by
  intro gs
  simp only [buildStep, hm]
  rcases hfail with h | h | h
  · simp [h]
  · cases hl : List.lookup v tbl with
    | none => simp
    | some value => simp [h]
  · cases hl : List.lookup v tbl with
    | none => simp
    | some value => simp [h]

/-- Characterization of a successful `buildStep`. -/
theorem buildStep_some_inv {tbl : List (String × String)} {fs : List Format}
    {line : String} {fs2 : List Format} (h : buildStep tbl fs line = some fs2) :
    (matchMapping line = none ∧ fs2 = fs) ∨
    ∃ c m v value g, matchMapping line = some (c, m, v) ∧
      List.lookup v tbl = some value ∧ searchSuffix v.data = some g ∧
      g ≠ "URGB".data ∧
      fs2 = fs ++ [⟨c, m, v, value, String.mk g⟩] := by
  cases hm : matchMapping line with
  | none =>
    simp only [buildStep, hm, Option.some.injEq] at h
    exact Or.inl ⟨rfl, h.symm⟩
  | some triple =>
    obtain ⟨c, m, v⟩ := triple
    simp only [buildStep, hm] at h
    cases hl : List.lookup v tbl with
    | none => simp [hl] at h
    | some value =>
      simp only [hl] at h
      cases hs : searchSuffix v.data with
      | none => simp [hs] at h
      | some g =>
        simp only [hs] at h
        by_cases hg : g = "URGB".data
        · rw [if_pos hg] at h; cases h
        · rw [if_neg hg] at h
          refine Or.inr ⟨c, m, v, value, g, rfl, hl, hs, hg, ?_⟩
          exact (Option.some.inj h).symm

/-- Characterization of a successful `extractStep`. -/
theorem extractStep_some_inv {tbl : List (String × String)} {line : String}
    {tbl2 : List (String × String)} (h : extractStep tbl line = some tbl2) :
    (matchVkFormat line = none ∧ tbl2 = tbl) ∨
    ∃ n v, matchVkFormat line = some (n, v) ∧ (List.lookup n tbl).isSome = false ∧
      tbl2 = tbl ++ [(n, v)] := by
  cases hm : matchVkFormat line with
  | none =>
    simp only [extractStep, hm, Option.some.injEq] at h
    exact Or.inl ⟨rfl, h.symm⟩
  | some pair =>
    obtain ⟨n, v⟩ := pair
    simp only [extractStep, hm] at h
    cases hl : (List.lookup n tbl).isSome with
    | true => simp [hl] at h
    | false =>
      simp only [hl, Bool.false_eq_true, if_false, Option.some.injEq] at h
      exact Or.inr ⟨n, v, rfl, hl, h.symm⟩

/-- A generic invariant for the records accumulated by the second loop. -/
theorem buildLoop_inv (P : Format → Prop) {tbl : List (String × String)}
    {fs : List Format} {lines : List String} {out : List Format}
    (h : buildLoop tbl fs lines = some out) (hfs : ∀ f ∈ fs, P f)
    (hstep : ∀ line c m v value g, matchMapping line = some (c, m, v) →
      List.lookup v tbl = some value → searchSuffix v.data = some g →
      g ≠ "URGB".data → P ⟨c, m, v, value, String.mk g⟩) :
    ∀ f ∈ out, P f := by
  induction lines generalizing fs with
  | nil =>
    simp only [buildLoop, Option.some.injEq] at h
    exact h ▸ hfs
  | cons l ls ih =>
    simp only [buildLoop] at h
    cases hb : buildStep tbl fs l with
    | none => rw [hb] at h; cases h
    | some fs2 =>
      rw [hb] at h
      refine ih h ?_
      rcases buildStep_some_inv hb with ⟨_, rfl⟩ | ⟨c, m, v, value, g, hm, hl, hs, hg, rfl⟩
      · exact hfs
      · intro f hf
        rcases List.mem_append.mp hf with hf | hf
        · exact hfs f hf
        · rcases List.mem_singleton.mp hf with rfl
          exact hstep l c m v value g hm hl hs hg

/-- Every entry of the table built by the first loop was either already there
or captured from some input line. -/
theorem extractLoop_entries {tbl : List (String × String)} {lines : List String}
    {out : List (String × String)} (h : extractLoop tbl lines = some out) :
    ∀ p ∈ out, p ∈ tbl ∨ ∃ line ∈ lines, matchVkFormat line = some p := by
  induction lines generalizing tbl with
  | nil =>
    simp only [extractLoop, Option.some.injEq] at h
    intro p hp
    exact Or.inl (h ▸ hp)
  | cons l ls ih =>
    simp only [extractLoop] at h
    cases hb : extractStep tbl l with
    | none => rw [hb] at h; cases h
    | some tbl2 =>
      rw [hb] at h
      intro p hp
      rcases ih h p hp with hin | ⟨line, hline, hmatch⟩
      · rcases extractStep_some_inv hb with ⟨_, rfl⟩ | ⟨n, v, hm, _, rfl⟩
        · exact Or.inl hin
        · rcases List.mem_append.mp hin with hin | hin
          · exact Or.inl hin
          · rcases List.mem_singleton.mp hin with rfl
            exact Or.inr ⟨l, List.mem_cons_self _ _, hm⟩
      · exact Or.inr ⟨line, List.mem_cons_of_mem _ hline, hmatch⟩

/-- Inversion of the first regex: a successful match decomposes the line into
leading whitespace, the literal prefix, the captured identifier, the literal
separator, the captured digit string — copied verbatim from the line — and an
optional trailing comma. -/
theorem matchVkFormat_inv {line : String} {n v : String}
    (h : matchVkFormat line = some (n, v)) :
    ∃ ws rest, line.data = ws ++ "VK_FORMAT_".data ++ n.data ++ " = ".data
        ++ v.data ++ rest
      ∧ ws ≠ [] ∧ ws.all isSpaceChar = true
      ∧ n.data ≠ [] ∧ n.data.all isWordChar = true
      ∧ v.data ≠ [] ∧ v.data.all Char.isDigit = true
      ∧ (rest = [] ∨ rest = [',']) := by
  simp only [matchVkFormat] at h
  by_cases hws : (line.data.takeWhile isSpaceChar).isEmpty
  · rw [if_pos hws] at h; cases h
  rw [if_neg hws] at h
  cases he1 : expectChars "VK_FORMAT_".data
      (line.data.drop (line.data.takeWhile isSpaceChar).length) with
  | none => rw [he1] at h; cases h
  | some r1 =>
  simp only [he1] at h
  by_cases hnm : (r1.takeWhile isWordChar).isEmpty
  · rw [if_pos hnm] at h; cases h
  rw [if_neg hnm] at h
  cases he2 : expectChars " = ".data (r1.drop (r1.takeWhile isWordChar).length) with
  | none => rw [he2] at h; cases h
  | some r2 =>
  simp only [he2] at h
  by_cases hvl : (r2.takeWhile Char.isDigit).isEmpty
  · rw [if_pos hvl] at h; cases h
  rw [if_neg hvl] at h
  have hline : line.data = line.data.takeWhile isSpaceChar
      ++ ("VK_FORMAT_".data ++ (r1.takeWhile isWordChar
      ++ (" = ".data ++ (r2.takeWhile Char.isDigit
      ++ r2.drop (r2.takeWhile Char.isDigit).length)))) := by
    conv_lhs => rw [takeWhile_decomp isSpaceChar line.data]
    rw [expectChars_eq_append he1]
    congr 2
    conv_lhs => rw [takeWhile_decomp isWordChar r1]
    rw [expectChars_eq_append he2]
    congr 2
    exact takeWhile_decomp Char.isDigit r2
  have base : ∀ rest2, rest2 = r2.drop (r2.takeWhile Char.isDigit).length →
      (rest2 = [] ∨ rest2 = [',']) →
      n = String.mk (r1.takeWhile isWordChar) →
      v = String.mk (r2.takeWhile Char.isDigit) →
      ∃ ws rest, line.data = ws ++ "VK_FORMAT_".data ++ n.data ++ " = ".data
          ++ v.data ++ rest
        ∧ ws ≠ [] ∧ ws.all isSpaceChar = true
        ∧ n.data ≠ [] ∧ n.data.all isWordChar = true
        ∧ v.data ≠ [] ∧ v.data.all Char.isDigit = true
        ∧ (rest = [] ∨ rest = [',']) := by
    rintro rest2 hrest2 hor rfl rfl
    refine ⟨line.data.takeWhile isSpaceChar, rest2, ?_, ?_, ?_, ?_, ?_, ?_, ?_, hor⟩
    · rw [← hrest2] at hline
      simpa [List.append_assoc] using hline
    · simpa [List.isEmpty_iff] using hws
    · exact List.all_eq_true.mpr fun x hx => List.mem_takeWhile_imp hx
    · simpa [List.isEmpty_iff] using hnm
    · exact List.all_eq_true.mpr fun x hx => List.mem_takeWhile_imp hx
    · simpa [List.isEmpty_iff] using hvl
    · exact List.all_eq_true.mpr fun x hx => List.mem_takeWhile_imp hx
  split at h
  · rename_i heq
    simp only [Option.some.injEq, Prod.mk.injEq] at h
    exact base [] heq.symm (Or.inl rfl) h.1.symm h.2.symm
  · rename_i d heq
    split at h
    · rename_i hd
      simp only [Option.some.injEq, Prod.mk.injEq] at h
      exact base [d] heq.symm (Or.inr (by rw [hd])) h.1.symm h.2.symm
    · cases h
  · cases h

/-- Inversion of the second regex: the captured source identifier is a
nonempty run of word characters. -/
theorem matchMapping_inv {line : String} {c : Bool} {m v : String}
    (h : matchMapping line = some (c, m, v)) :
    v.data ≠ [] ∧ v.data.all isWordChar = true := by
  simp only [matchMapping] at h
  by_cases hws : (line.data.takeWhile isSpaceChar).isEmpty
  · rw [if_pos hws] at h; cases h
  rw [if_neg hws] at h
  by_cases hw : ((line.data.drop (line.data.takeWhile isSpaceChar).length).takeWhile
      isWordChar).isEmpty
  · rw [if_pos hw] at h; cases h
  rw [if_neg hw] at h
  cases he1 : expectChars " = VK_FORMAT_".data
      ((line.data.drop (line.data.takeWhile isSpaceChar).length).drop
        ((line.data.drop (line.data.takeWhile isSpaceChar).length).takeWhile
          isWordChar).length) with
  | none => rw [he1] at h; cases h
  | some r1 =>
  simp only [he1] at h
  by_cases hvn : (r1.takeWhile isWordChar).isEmpty
  · rw [if_pos hvn] at h; cases h
  rw [if_neg hvn] at h
  have hv : v = String.mk (r1.takeWhile isWordChar) := by
    split at h
    · split at h <;>
        (simp only [Option.some.injEq, Prod.mk.injEq] at h; exact h.2.2.symm)
    · split at h
      · split at h <;>
          (simp only [Option.some.injEq, Prod.mk.injEq] at h; exact h.2.2.symm)
      · cases h
    · cases h
  subst hv
  refine ⟨by simpa [List.isEmpty_iff] using hvn, ?_⟩
  exact List.all_eq_true.mpr fun x hx => List.mem_takeWhile_imp hx

/-- Inversion of the suffix-group matcher: the group is the class character
followed by one of the four tags. -/
theorem tryMarker_inv {s g : List Char} (h : tryMarker s = some g) :
    ∃ c rest t, s = c :: rest ∧ (c = 'U' ∨ c = '|' ∨ c = 'S') ∧
      t ∈ markerTags ∧ g = c :: t := by
  cases s with
  | nil => cases h
  | cons c rest =>
    simp only [tryMarker] at h
    by_cases hc : (c = 'U' || c = '|' || c = 'S') = true
    · rw [if_pos hc] at h
      cases hf : markerTags.find? (fun t => t.isPrefixOf rest) with
      | none => rw [hf] at h; cases h
      | some t =>
        rw [hf] at h
        refine ⟨c, rest, t, rfl, ?_, List.mem_of_find?_eq_some hf, (Option.some.inj h).symm⟩
        simpa [Bool.or_eq_true, decide_eq_true_eq, or_assoc] using hc
    · rw [if_neg hc] at h; cases h

/-- Inversion of an anchored attempt: `j` word characters, an underscore, the
group. -/
theorem tryAt_inv {s : List Char} {j : Nat} {g : List Char} (h : tryAt s j = some g) :
    1 ≤ j ∧ (s.take j).all isWordChar = true ∧
      ∃ rest, s.drop j = '_' :: rest ∧ tryMarker rest = some g := by
  unfold tryAt at h
  by_cases h1 : 1 ≤ j
  · rw [if_pos h1] at h
    by_cases h2 : (s.take j).all isWordChar = true
    · rw [if_pos h2] at h
      refine ⟨h1, h2, ?_⟩
      split at h
      · rename_i rest heq
        exact ⟨rest, heq, h⟩
      · cases h
    · rw [if_neg h2] at h; cases h
  · rw [if_neg h1] at h; cases h

/-- A successful anchored attempt stays inside the string. -/
theorem tryAt_lt_length {s : List Char} {j : Nat} {g : List Char}
    (h : tryAt s j = some g) : j < s.length := by
  obtain ⟨_, _, rest, hdrop, _⟩ := tryAt_inv h
  by_contra hle
  push_neg at hle
  rw [List.drop_of_length_le hle] at hdrop
  cases hdrop

/-- The greedy loop returns the attempt at the largest matching length. -/
theorem tryGreedy_inv {s : List Char} {n : Nat} {g : List Char}
    (h : tryGreedy s n = some g) :
    ∃ j, 1 ≤ j ∧ j ≤ n ∧ tryAt s j = some g ∧
      ∀ k, j < k → k ≤ n → tryAt s k = none := by
  induction n with
  | zero => cases h
  | succ n ih =>
    simp only [tryGreedy] at h
    cases ht : tryAt s (n + 1) with
    | some g2 =>
      rw [ht] at h
      obtain rfl : g2 = g := Option.some.inj h
      exact ⟨n + 1, (tryAt_inv ht).1, Nat.le_refl _, ht,
        fun k hk1 hk2 => absurd (Nat.lt_of_lt_of_le hk1 hk2) (Nat.lt_irrefl _)⟩
    | none =>
      rw [ht] at h
      obtain ⟨j, h1, h2, h3, h4⟩ := ih h
      refine ⟨j, h1, Nat.le_succ_of_le h2, h3, fun k hk1 hk2 => ?_⟩
      rcases Nat.lt_or_ge k (n + 1) with hk | hk
      · exact h4 k hk1 (Nat.lt_succ_iff.mp hk)
      · have : k = n + 1 := Nat.le_antisymm hk2 hk
        exact this ▸ ht

/-- If some anchored attempt within the budget succeeds, the greedy loop
succeeds. -/
theorem tryGreedy_isSome {s : List Char} {j n : Nat} {g : List Char}
    (hj : tryAt s j = some g) (hjn : j ≤ n) : (tryGreedy s n).isSome = true := by
  induction n with
  | zero =>
    have := (tryAt_inv hj).1
    omega
  | succ n ih =>
    simp only [tryGreedy]
    cases ht : tryAt s (n + 1) with
    | some g2 => rfl
    | none =>
      have hne : j ≠ n + 1 := fun he => by rw [he, ht] at hj; cases hj
      exact ih (Nat.lt_succ_iff.mp (Nat.lt_of_le_of_ne hjn hne))

/-- When the greedy loop at the full length succeeds, the search returns its
result (the search never advances past a start position that matches). -/
theorem searchSuffix_eq_tryGreedy {s : List Char} {g : List Char}
    (h : tryGreedy s s.length = some g) : searchSuffix s = some g := by
  cases s with
  | nil => cases h
  | cons c rest =>
    simp only [searchSuffix]
    rw [h]

/-- Characterization of the group returned by the search: class character
plus tag, and the class character occurs in the searched string. -/
theorem searchSuffix_inv {s g : List Char} (h : searchSuffix s = some g) :
    ∃ c t, g = c :: t ∧ (c = 'U' ∨ c = '|' ∨ c = 'S') ∧ t ∈ markerTags ∧ c ∈ s := by
  induction s with
  | nil => cases h
  | cons a rest ih =>
    simp only [searchSuffix] at h
    cases ht : tryGreedy (a :: rest) (a :: rest).length with
    | some g2 =>
      rw [ht] at h
      obtain rfl : g2 = g := Option.some.inj h
      obtain ⟨j, _, _, h3, _⟩ := tryGreedy_inv ht
      obtain ⟨_, _, rest2, hdrop, hmark⟩ := tryAt_inv h3
      obtain ⟨c, rest3, t, hrest, hc, htag, hg⟩ := tryMarker_inv hmark
      refine ⟨c, t, hg, hc, htag, ?_⟩
      have hcmem : c ∈ (a :: rest).drop j := by
        rw [hdrop, hrest]
        exact List.mem_cons_of_mem _ (List.mem_cons_self _ _)
      exact List.mem_of_mem_drop hcmem
    | none =>
      rw [ht] at h
      obtain ⟨c, t, hg, hc, htag, hmem⟩ := ih h
      exact ⟨c, t, hg, hc, htag, List.mem_cons_of_mem a hmem⟩

/-- The derived group of any record built from a word-character identifier is
one of the seven legal suffixes (the `URGB` combination being excluded by the
assertion in the calling loop, the bar by the alphabet of identifiers). -/
theorem suffix_mem_of_word {v : String} {g : List Char}
    (hword : v.data.all isWordChar = true) (hs : searchSuffix v.data = some g)
    (hg : g ≠ "URGB".data) :
    String.mk g ∈ (["UNORM", "SNORM", "UINT", "SINT", "UFLOAT", "SFLOAT",
      "SRGB"] : List String) := by
  obtain ⟨c, t, rfl, hc, htag, hmem⟩ := searchSuffix_inv hs
  have hcword : isWordChar c = true := List.all_eq_true.mp hword c hmem
  have hcUS : c = 'U' ∨ c = 'S' := by
    rcases hc with rfl | rfl | rfl
    · exact Or.inl rfl
    · exact absurd hcword (by decide)
    · exact Or.inr rfl
  simp only [markerTags, List.mem_cons, List.mem_singleton] at htag
  rcases hcUS with rfl | rfl <;>
    rcases htag with rfl | rfl | rfl | (rfl | h) <;>
    first
      | exact absurd rfl hg
      | decide
      | cases h

/-! ### The claims -/

/-- C3: each of the four fatal conditions — duplicate constant symbol,
reference to an undefined constant, suffix pattern failing to match, derived
suffix equal to URGB — makes the corresponding `assert` fail, modelled as the
whole script evaluating to `none` (AssertionError, non-zero exit). -/
theorem C3_fatal_asserts :
    (∀ (pre post fmtLines : List String) (tbl : List (String × String))
        (line n v : String),
      extractLoop [] pre = some tbl → matchVkFormat line = some (n, v) →
      (List.lookup n tbl).isSome = true →
      runScript (pre ++ line :: post) fmtLines = none) ∧
    (∀ (vk fmtLines : List String) (tbl : List (String × String)) (line : String)
        (c : Bool) (m v : String),
      extractConstants vk = some tbl → line ∈ fmtLines →
      matchMapping line = some (c, m, v) → List.lookup v tbl = none →
      runScript vk fmtLines = none) ∧
    (∀ (vk fmtLines : List String) (line : String) (c : Bool) (m v : String),
      line ∈ fmtLines → matchMapping line = some (c, m, v) →
      searchSuffix v.data = none → runScript vk fmtLines = none) ∧
    (∀ (vk fmtLines : List String) (line : String) (c : Bool) (m v : String),
      line ∈ fmtLines → matchMapping line = some (c, m, v) →
      searchSuffix v.data = some "URGB".data → runScript vk fmtLines = none) := by
  refine ⟨?_, ?_, ?_, ?_⟩
  · intro pre post fmtLines tbl line n v hpre hm hdup
    apply runScript_eq_none_of_extract
    unfold extractConstants
    rw [extractLoop_append, hpre]
    simp [extractLoop, extractStep, hm, hdup]
  · intro vk fmtLines tbl line c m v hvk hmem hm hlook
    refine runScript_eq_none_of_build hvk ?_
    exact buildLoop_none_of_mem tbl [] fmtLines line hmem
      (buildStep_none_cond hm (Or.inl hlook))
  · intro vk fmtLines line c m v hmem hm hsfail
    cases hvk : extractConstants vk with
    | none => exact runScript_eq_none_of_extract hvk
    | some tbl =>
      refine runScript_eq_none_of_build hvk ?_
      exact buildLoop_none_of_mem tbl [] fmtLines line hmem
        (buildStep_none_cond hm (Or.inr (Or.inl hsfail)))
  · intro vk fmtLines line c m v hmem hm hurgb
    cases hvk : extractConstants vk with
    | none => exact runScript_eq_none_of_extract hvk
    | some tbl =>
      refine runScript_eq_none_of_build hvk ?_
      exact buildLoop_none_of_mem tbl [] fmtLines line hmem
        (buildStep_none_cond hm (Or.inr (Or.inr hurgb)))

/-- Witness for C3: the four fatal conditions fire on concrete inputs. -/
theorem C3_fatal_asserts_witness :
    runScript ["  VK_FORMAT_R8_UNORM = 9,"] ["  R8Unorm = VK_FORMAT_R8_UNORM,"]
        ≠ none ∧
    runScript (["  VK_FORMAT_R8_UNORM = 9,"] ++
        ["  VK_FORMAT_R8_UNORM = 10,"] ++ []) [] = none ∧
    runScript [] ["  R8Unorm = VK_FORMAT_R8_UNORM,"] = none ∧
    runScript ["  VK_FORMAT_R8 = 9,"] ["  R8 = VK_FORMAT_R8,"] = none ∧
    runScript ["  VK_FORMAT_X_URGB_BLOCK = 3,"] ["  XUrgb = VK_FORMAT_X_URGB_BLOCK,"]
        = none := by
  refine ⟨by decide, ?_, ?_, ?_, ?_⟩
  · exact C3_fatal_asserts.1 ["  VK_FORMAT_R8_UNORM = 9,"] []
      [] [("R8_UNORM", "9")] "  VK_FORMAT_R8_UNORM = 10," "R8_UNORM" "10"
      (by decide) (by decide) (by decide)
  · exact C3_fatal_asserts.2.1 [] ["  R8Unorm = VK_FORMAT_R8_UNORM,"] []
      "  R8Unorm = VK_FORMAT_R8_UNORM," false "R8Unorm" "R8_UNORM"
      (by decide) (by decide) (by decide) (by decide)
  · exact C3_fatal_asserts.2.2.1 ["  VK_FORMAT_R8 = 9,"] ["  R8 = VK_FORMAT_R8,"]
      "  R8 = VK_FORMAT_R8," false "R8" "R8"
      (by decide) (by decide) (by decide)
  · exact C3_fatal_asserts.2.2.2 ["  VK_FORMAT_X_URGB_BLOCK = 3,"]
      ["  XUrgb = VK_FORMAT_X_URGB_BLOCK,"] "  XUrgb = VK_FORMAT_X_URGB_BLOCK,"
      false "XUrgb" "X_URGB_BLOCK"
      (by decide) (by decide) (by decide)

/-- C4: a mapping line whose source identifier derives the disallowed URGB
suffix makes the script die in the second loop; in the model the result is
`none`, i.e. neither output file is produced — in the source both
`open(..., 'w')` calls are only reached after both loops finished. -/
theorem C4_atomic_urgb (vk fmtLines : List String) (line : String)
    (c : Bool) (m v : String) (hmem : line ∈ fmtLines)
    (hm : matchMapping line = some (c, m, v))
    (hs : searchSuffix v.data = some "URGB".data) :
    runScript vk fmtLines = none := by
  cases hvk : extractConstants vk with
  | none => exact runScript_eq_none_of_extract hvk
  | some tbl =>
    refine runScript_eq_none_of_build hvk ?_
    exact buildLoop_none_of_mem tbl [] fmtLines line hmem
      (buildStep_none_cond hm (Or.inr (Or.inr hs)))

/-- Witness for C4 at a concrete engineered identifier. -/
theorem C4_atomic_urgb_witness :
    runScript ["  VK_FORMAT_X_URGB_PACK8 = 3,"] ["  XUrgbW = VK_FORMAT_X_URGB_PACK8,"]
      = none :=
  C4_atomic_urgb ["  VK_FORMAT_X_URGB_PACK8 = 3,"]
    ["  XUrgbW = VK_FORMAT_X_URGB_PACK8,"] "  XUrgbW = VK_FORMAT_X_URGB_PACK8,"
    false "XUrgbW" "X_URGB_PACK8" (by decide) (by decide) (by decide)

/-- C5: the record-count check is soft: whenever both loops succeed the
script writes both output files; the warning flag is raised exactly when the
count differs from 135 and has no effect on the result. -/
theorem C5_soft_count (vk fmt : List String) (tbl : List (String × String))
    (fs : List Format) (h1 : extractConstants vk = some tbl)
    (h2 : buildFormats tbl fmt = some fs) :
    runScript vk fmt = some (fs.length != 135,
      fileContent columnsNC (partitionFormats fs).1,
      fileContent columnsC (filterPvrtc2 (partitionFormats fs).2)) ∧
    (fs.length = 135 → (fs.length != 135) = false) ∧
    (fs.length ≠ 135 → (fs.length != 135) = true) := by
  refine ⟨?_, ?_, ?_⟩
  · simp [runScript, h1, h2]
  · intro he; simp [he]
  · intro he; simp [he]

/-- Witness for C5: a one-record run warns but still writes both files. -/
theorem C5_soft_count_witness :
    runScript ["  VK_FORMAT_R8_UNORM = 9,"] ["  R8Unorm = VK_FORMAT_R8_UNORM,"]
      = some (true,
        fileContent columnsNC (partitionFormats
          [⟨false, "R8Unorm", "R8_UNORM", "9", "UNORM"⟩]).1,
        fileContent columnsC (filterPvrtc2 (partitionFormats
          [⟨false, "R8Unorm", "R8_UNORM", "9", "UNORM"⟩]).2)) :=
  (C5_soft_count ["  VK_FORMAT_R8_UNORM = 9,"] ["  R8Unorm = VK_FORMAT_R8_UNORM,"]
    [("R8_UNORM", "9")] [⟨false, "R8Unorm", "R8_UNORM", "9", "UNORM"⟩]
    (by decide) (by decide)).1

/-- C8: the generator is a pure function of the two input files — equal
inputs give byte-identical output files (determinism / idempotence across
runs). -/
theorem C8_deterministic (vk1 vk2 fmt1 fmt2 : List String)
    (h1 : vk1 = vk2) (h2 : fmt1 = fmt2) :
    runScript vk1 fmt1 = runScript vk2 fmt2 := by
  rw [h1, h2]

/-- Witness for C8 at concrete inputs. -/
theorem C8_deterministic_witness :
    runScript ["  VK_FORMAT_R8_UNORM = 9,"] ["  R8Unorm = VK_FORMAT_R8_UNORM,"]
      = runScript ["  VK_FORMAT_R8_UNORM = 9,"] ["  R8Unorm = VK_FORMAT_R8_UNORM,"] :=
  C8_deterministic ["  VK_FORMAT_R8_UNORM = 9,"] ["  VK_FORMAT_R8_UNORM = 9,"]
    ["  R8Unorm = VK_FORMAT_R8_UNORM,"] ["  R8Unorm = VK_FORMAT_R8_UNORM,"] rfl rfl

/-- C9: every record that reaches the emitter carries one of the seven legal
suffixes; the URGB combination is excluded by the assertion, and although the
character class of the suffix regex also accepts a literal bar, that
alternative is unreachable because source identifiers consist only of word
characters. -/
theorem C9_suffix_invariant :
    (∀ (tbl : List (String × String)) (lines : List String) (fs : List Format),
      buildFormats tbl lines = some fs → ∀ f ∈ fs,
      f.suffix ∈ (["UNORM", "SNORM", "UINT", "SINT", "UFLOAT", "SFLOAT",
        "SRGB"] : List String)) ∧
    tryMarker ('|' :: "NORM".data) = some ('|' :: "NORM".data) ∧
    (∀ (s g : List Char), s.all isWordChar = true → searchSuffix s = some g →
      ∀ c t, g = c :: t → c ≠ '|') := by
  refine ⟨?_, by decide, ?_⟩
  · intro tbl lines fs h
    refine buildLoop_inv _ h (by simp) ?_
    intro line c m v value g hm hl hs hg
    exact suffix_mem_of_word (matchMapping_inv hm).2 hs hg
  · intro s g hword hs c t hg hbar
    subst hg; subst hbar
    obtain ⟨c2, t2, heq, _, _, hmem⟩ := searchSuffix_inv hs
    obtain rfl : c2 = '|' := (List.cons.injEq .. ▸ heq).1.symm
    have := List.all_eq_true.mp hword _ hmem
    exact absurd this (by decide)

/-- Witness for C9 at a concrete run and a concrete word-character string. -/
theorem C9_suffix_invariant_witness :
    ("UNORM" : String) ∈ (["UNORM", "SNORM", "UINT", "SINT", "UFLOAT", "SFLOAT",
      "SRGB"] : List String) ∧ ('S' : Char) ≠ '|' :=
  ⟨C9_suffix_invariant.1 [("R8_UNORM", "9")] ["  R8Unorm = VK_FORMAT_R8_UNORM,"]
      [⟨false, "R8Unorm", "R8_UNORM", "9", "UNORM"⟩] (by decide)
      ⟨false, "R8Unorm", "R8_UNORM", "9", "UNORM"⟩ (by decide),
    C9_suffix_invariant.2.2 "A_SRGB".data "SRGB".data (by decide) (by decide)
      'S' "RGB".data rfl⟩

/-- C10: with the greedy word-run prefix of the suffix regex, the suffix is
derived from the rightmost matching classification token: the search result
comes from the largest matching anchor position, and an identifier of the
form X_SFLOAT_SRGB yields SRGB, not SFLOAT. -/
theorem C10_rightmost_token :
    searchSuffix "X_SFLOAT_SRGB".data = some "SRGB".data ∧
    (∀ (s : List Char) (j : Nat) (g : List Char), tryAt s j = some g →
      ∃ jmax gmax, tryAt s jmax = some gmax ∧ searchSuffix s = some gmax ∧
        j ≤ jmax ∧ ∀ k h2, tryAt s k = some h2 → k ≤ jmax) := by
  refine ⟨by decide, ?_⟩
  intro s j g hj
  have hlt := tryAt_lt_length hj
  have hsome := tryGreedy_isSome hj (Nat.le_of_lt hlt)
  obtain ⟨gmax, hgmax⟩ := Option.isSome_iff_exists.mp hsome
  obtain ⟨jmax, hj1, hj2, hj3, hj4⟩ := tryGreedy_inv hgmax
  refine ⟨jmax, gmax, hj3, searchSuffix_eq_tryGreedy hgmax, ?_, ?_⟩
  · by_contra hgt
    push_neg at hgt
    rw [hj4 j hgt (Nat.le_of_lt hlt)] at hj
    cases hj
  · intro k h2 hk
    by_contra hgt
    push_neg at hgt
    rw [hj4 k hgt (Nat.le_of_lt (tryAt_lt_length hk))] at hk
    cases hk

/-- Witness for C10: the anchored attempt at position 1 of X_SFLOAT_SRGB
matches SFLOAT, yet the search settles on the rightmost (maximal) anchor. -/
theorem C10_rightmost_token_witness :
    ∃ jmax gmax, tryAt "X_SFLOAT_SRGB".data jmax = some gmax ∧
      searchSuffix "X_SFLOAT_SRGB".data = some gmax ∧ 1 ≤ jmax ∧
      ∀ k h2, tryAt "X_SFLOAT_SRGB".data k = some h2 → k ≤ jmax :=
  C10_rightmost_token.2 "X_SFLOAT_SRGB".data 1 "SFLOAT".data (by decide)

/-- C6 counterexample: the identifier X_SFLOAT_SRGB contains the text
_SFLOAT, qualifies in a mapping line, yet classifies as SRGB, not SFLOAT. -/
theorem C6_counterexample :
    matchMapping "  XSrgb = VK_FORMAT_X_SFLOAT_SRGB,"
      = some (false, "XSrgb", "X_SFLOAT_SRGB") ∧
    (∃ s t, "X_SFLOAT_SRGB".data = s ++ "_SFLOAT".data ++ t) ∧
    searchSuffix "X_SFLOAT_SRGB".data = some "SRGB".data ∧
    buildFormats [("X_SFLOAT_SRGB", "7")] ["  XSrgb = VK_FORMAT_X_SFLOAT_SRGB,"]
      = some [⟨false, "XSrgb", "X_SFLOAT_SRGB", "7", "SRGB"⟩] ∧
    ("SRGB" : String) ≠ "SFLOAT" := by
  refine ⟨by decide, ⟨"X".data, "_SRGB".data, by decide⟩, by decide, by decide,
    by decide⟩

/-- C6 (amended): for every qualifying mapping line the stored suffix is the
group found by the suffix regex (fatally failing when there is none), and an
identifier whose rightmost classification token is _SFLOAT — such as
BC6H_SFLOAT_BLOCK — classifies as SFLOAT. -/
theorem C6_suffix_derivation :
    (∀ (tbl : List (String × String)) (fs : List Format) (line : String)
        (c : Bool) (m v value : String),
      matchMapping line = some (c, m, v) → List.lookup v tbl = some value →
      (searchSuffix v.data = none → buildStep tbl fs line = none) ∧
      (∀ g, searchSuffix v.data = some g → g ≠ "URGB".data →
        buildStep tbl fs line = some (fs ++ [⟨c, m, v, value, String.mk g⟩]))) ∧
    searchSuffix "BC6H_SFLOAT_BLOCK".data = some "SFLOAT".data := by
  refine ⟨?_, by decide⟩
  intro tbl fs line c m v value hm hl
  constructor
  · intro hs
    simp [buildStep, hm, hl, hs]
  · intro g hs hg
    simp [buildStep, hm, hl, hs, hg]

/-- Witness for C6 (amended) at a concrete line. -/
theorem C6_suffix_derivation_witness :
    buildStep [("R8_UNORM", "9")] [] "  R8Unorm = VK_FORMAT_R8_UNORM,"
      = some [⟨false, "R8Unorm", "R8_UNORM", "9", String.mk "UNORM".data⟩] :=
  (C6_suffix_derivation.1 [("R8_UNORM", "9")] [] "  R8Unorm = VK_FORMAT_R8_UNORM,"
    false "R8Unorm" "R8_UNORM" "9" (by decide) (by decide)).2
    "UNORM".data (by decide) (by decide)

/-- C7: the value captured from a constant line is the verbatim digit
substring of that line; every table entry was captured from some input line;
and the source value of every record is exactly the table value for its
source name. -/
theorem C7_verbatim_values :
    (∀ (line n v : String), matchVkFormat line = some (n, v) →
      ∃ ws rest, line.data = ws ++ "VK_FORMAT_".data ++ n.data ++ " = ".data
          ++ v.data ++ rest
        ∧ ws ≠ [] ∧ ws.all isSpaceChar = true
        ∧ n.data ≠ [] ∧ n.data.all isWordChar = true
        ∧ v.data ≠ [] ∧ v.data.all Char.isDigit = true
        ∧ (rest = [] ∨ rest = [','])) ∧
    (∀ (lines : List String) (tbl : List (String × String)),
      extractConstants lines = some tbl → ∀ p ∈ tbl,
      ∃ line ∈ lines, matchVkFormat line = some p) ∧
    (∀ (tbl : List (String × String)) (lines : List String) (fs : List Format),
      buildFormats tbl lines = some fs → ∀ f ∈ fs,
      List.lookup f.vulkan_name tbl = some f.vulkan) := by
  refine ⟨fun line n v h => matchVkFormat_inv h, ?_, ?_⟩
  · intro lines tbl h p hp
    rcases extractLoop_entries h p hp with hin | hline
    · cases hin
    · exact hline
  · intro tbl lines fs h
    refine buildLoop_inv _ h (by simp) ?_
    intro line c m v value g hm hl hs hg
    exact hl

/-- Witness for C7 at a concrete run. -/
theorem C7_verbatim_values_witness :
    List.lookup ("R8_UNORM" : String) [(("R8_UNORM" : String), ("9" : String))]
      = some "9" :=
  C7_verbatim_values.2.2 [("R8_UNORM", "9")] ["  R8Unorm = VK_FORMAT_R8_UNORM,"]
    [⟨false, "R8Unorm", "R8_UNORM", "9", "UNORM"⟩] (by decide)
    ⟨false, "R8Unorm", "R8_UNORM", "9", "UNORM"⟩ (by decide)

/-- C1: on the minimal synthetic pair of headers the non-compressed output
file contains the expected generated line. -/
theorem C1_end_to_end :
    ∃ w o1 o2,
      runScript ["  VK_FORMAT_R8_UNORM = 9,"] ["  R8Unorm = VK_FORMAT_R8_UNORM,"]
        = some (w, o1, o2) ∧
      "_c(9, R8Unorm, UNORM) /* VK_FORMAT_R8_UNORM */" ∈ fileLines o1 := by
  refine ⟨true,
    fileContent columnsNC [⟨false, "R8Unorm", "R8_UNORM", "9", "UNORM"⟩],
    fileContent columnsC [], rfl, ?_⟩
  refine mem_fileLines_of_decomp _ _
    (licenseHeader.data ++ columnsNC.data ++ "#ifdef _c".data)
    ("#endif\n".data) ?_ (by decide)
  have hjoin : String.join
      ([(⟨false, "R8Unorm", "R8_UNORM", "9", "UNORM"⟩ : Format)].map emitLine)
      = "_c(9, R8Unorm, UNORM) /* VK_FORMAT_R8_UNORM */\n" := rfl
  simp only [fileContent, hjoin, String.data_append, List.append_assoc]
  congr 1

/-- C2: the partition is a disjoint, order-preserving split of the record
list by the compressed flag, with compressed records whose target name starts
with Pvrtc2 dropped entirely; and the synthetic Bc1 entry produces a
compressed record that appears only in the compressed output. -/
theorem C2_partition :
    (∀ fs : List Format,
      (∀ f ∈ fs, f.compressed = false → f ∈ (partitionFormats fs).1) ∧
      (∀ f ∈ fs, f.compressed = true →
        "Pvrtc2".data.isPrefixOf f.magnum.data = false →
        f ∈ filterPvrtc2 (partitionFormats fs).2) ∧
      (∀ f ∈ fs, f.compressed = true →
        "Pvrtc2".data.isPrefixOf f.magnum.data = true →
        f ∉ (partitionFormats fs).1 ∧ f ∉ filterPvrtc2 (partitionFormats fs).2) ∧
      (∀ f : Format,
        ¬(f ∈ (partitionFormats fs).1 ∧ f ∈ filterPvrtc2 (partitionFormats fs).2)) ∧
      (partitionFormats fs).1.Sublist fs ∧
      (filterPvrtc2 (partitionFormats fs).2).Sublist fs) ∧
    (matchMapping "  CompressedBc1RGBAUnorm = VK_FORMAT_BC1_RGBA_UNORM_BLOCK,"
      = some (true, "Bc1RGBAUnorm", "BC1_RGBA_UNORM_BLOCK")) ∧
    (runScript
        ["  VK_FORMAT_R8_UNORM = 9,", "  VK_FORMAT_BC1_RGBA_UNORM_BLOCK = 133,"]
        ["  R8Unorm = VK_FORMAT_R8_UNORM,",
          "  CompressedBc1RGBAUnorm = VK_FORMAT_BC1_RGBA_UNORM_BLOCK,"]
      = some (true,
        fileContent columnsNC [⟨false, "R8Unorm", "R8_UNORM", "9", "UNORM"⟩],
        fileContent columnsC
          [⟨true, "Bc1RGBAUnorm", "BC1_RGBA_UNORM_BLOCK", "133", "UNORM"⟩])) ∧
    ((⟨true, "Bc1RGBAUnorm", "BC1_RGBA_UNORM_BLOCK", "133", "UNORM"⟩ : Format)
      ∈ filterPvrtc2 (partitionFormats
        [⟨false, "R8Unorm", "R8_UNORM", "9", "UNORM"⟩,
         ⟨true, "Bc1RGBAUnorm", "BC1_RGBA_UNORM_BLOCK", "133", "UNORM"⟩]).2) ∧
    ((⟨true, "Bc1RGBAUnorm", "BC1_RGBA_UNORM_BLOCK", "133", "UNORM"⟩ : Format)
      ∉ (partitionFormats
        [⟨false, "R8Unorm", "R8_UNORM", "9", "UNORM"⟩,
         ⟨true, "Bc1RGBAUnorm", "BC1_RGBA_UNORM_BLOCK", "133", "UNORM"⟩]).1) ∧
    "_c(133, Bc1RGBAUnorm, UNORM) /* VK_FORMAT_BC1_RGBA_UNORM_BLOCK */"
      ∈ fileLines (fileContent columnsC
        [⟨true, "Bc1RGBAUnorm", "BC1_RGBA_UNORM_BLOCK", "133", "UNORM"⟩]) := by
  refine ⟨?_, by decide, rfl, by decide, by decide, ?_⟩
  · intro fs
    refine ⟨?_, ?_, ?_, ?_, ?_, ?_⟩
    · intro f hf hc
      exact List.mem_filter.mpr ⟨hf, by simp [hc]⟩
    · intro f hf hc hp
      exact List.mem_filter.mpr ⟨List.mem_filter.mpr ⟨hf, by simp [hc]⟩, by simp [hp]⟩
    · intro f hf hc hp
      constructor
      · intro hmem
        have h2 := (List.mem_filter.mp hmem).2
        simp [hc] at h2
      · intro hmem
        have h2 := (List.mem_filter.mp hmem).2
        simp [hp] at h2
    · rintro f ⟨h1, h2⟩
      have hb1 := (List.mem_filter.mp h1).2
      have hb2 := (List.mem_filter.mp (List.mem_filter.mp h2).1).2
      simp only [Bool.not_eq_true'] at hb1
      rw [hb1] at hb2
      cases hb2
    · exact List.filter_sublist fs
    · exact (List.filter_sublist _).trans (List.filter_sublist fs)
  · refine mem_fileLines_of_decomp _ _
      (licenseHeader.data ++ columnsC.data ++ "#ifdef _c".data)
      ("#endif\n".data) ?_ (by decide)
    have hjoin : String.join
        ([(⟨true, "Bc1RGBAUnorm", "BC1_RGBA_UNORM_BLOCK", "133", "UNORM"⟩ :
          Format)].map emitLine)
        = "_c(133, Bc1RGBAUnorm, UNORM) /* VK_FORMAT_BC1_RGBA_UNORM_BLOCK */\n" :=
      rfl
    simp only [fileContent, hjoin, String.data_append, List.append_assoc]
    congr 1

/-- Witness for C2 at a concrete record list. -/
theorem C2_partition_witness :
    (⟨false, "R8Unorm", "R8_UNORM", "9", "UNORM"⟩ : Format)
      ∈ (partitionFormats [⟨false, "R8Unorm", "R8_UNORM", "9", "UNORM"⟩,
          ⟨true, "Bc1RGBAUnorm", "BC1_RGBA_UNORM_BLOCK", "133", "UNORM"⟩]).1 :=
  (C2_partition.1 [⟨false, "R8Unorm", "R8_UNORM", "9", "UNORM"⟩,
      ⟨true, "Bc1RGBAUnorm", "BC1_RGBA_UNORM_BLOCK", "133", "UNORM"⟩]).1
    ⟨false, "R8Unorm", "R8_UNORM", "9", "UNORM"⟩ (by decide) (by decide)

end FormatMapping
